import Mathlib

/-!
# front-parser: script locator, extractor and aggregator

A shallow embedding of `front-parser.go`.

* Go strings are modelled as lists of runes (`Str`), the unit on which the
  `regexp` package works.
* The five regular expressions of the program are values of `Re`, run by a
  backtracking matcher.  Go documents its matching discipline as
  leftmost-first: of the matches starting at the leftmost possible position
  it returns "the one that a backtracking search would have found first".
* `http.Get` followed by `ioutil.ReadAll` is an oracle from URL to body or
  error, and `jwt.Parse` (a third-party library) is an oracle telling
  whether the call returned `err == nil` with `Valid` set.
-/

namespace FrontParser

abbrev Str := List Char

/-! ## Character classes -/

/-- The double quote character. -/
def dquote : Char := Char.ofNat 34

/-- The single quote character. -/
def squote : Char := Char.ofNat 39

/-- Class `["']`. -/
def isQuote (c : Char) : Bool := c == dquote || c == squote

/-- Class `\s` of Go regexps: tab, newline, form feed, carriage return, space. -/
def isSpace (c : Char) : Bool :=
  c == Char.ofNat 9 || c == Char.ofNat 10 || c == Char.ofNat 12 || c == Char.ofNat 13 || c == ' '

/-- Class `[a-zA-Z0-9]`. -/
def isAlnum (c : Char) : Bool :=
  (decide ('a' ≤ c) && decide (c ≤ 'z')) || (decide ('A' ≤ c) && decide (c ≤ 'Z'))
    || (decide ('0' ≤ c) && decide (c ≤ '9'))

/-- Class `\w` of Go regexps: `[0-9A-Za-z_]`. -/
def isWord (c : Char) : Bool := isAlnum c || c == '_'

/-- Class `.` of Go regexps without the `s` flag: any rune but newline. -/
def isDot (c : Char) : Bool := !(c == Char.ofNat 10)

/-- Class `[^"'\s]` of `routeRegex`. -/
def isRouteBody (c : Char) : Bool := !(isQuote c || isSpace c)

/-- Word runes, hyphen and slash: the class whose complement `invalidRoute` uses. -/
def isRouteChar (c : Char) : Bool := isWord c || c == '-' || c == '/'

/-- The negated class of `invalidRoute`: not a word rune, not a hyphen, not a slash. -/
def isInvalidRouteChar (c : Char) : Bool := !(isRouteChar c)

/-- Class `[^"']` of `depRegex`. -/
def isDepChar (c : Char) : Bool := !(isQuote c)

/-- Class `[a-zA-Z0-9\-_=]` of `tokenRegex`. -/
def isTokenChar (c : Char) : Bool := isAlnum c || c == '-' || c == '_' || c == '='

/-- Class `[a-zA-Z0-9\-_+=/]` of `tokenRegex`. -/
def isTokenTailChar (c : Char) : Bool :=
  isAlnum c || c == '-' || c == '_' || c == '+' || c == '=' || c == '/'

/-! ## Regular expressions and the backtracking matcher -/

/-- The fragment of regexp syntax the program uses: a rune of a class, a
literal, concatenation, `x*` / `x*?` on a class and `x?` on a class. -/
inductive Re where
  | one (p : Char → Bool)
  | lit (l : Str)
  | seq (a b : Re)
  | star (p : Char → Bool) (greedy : Bool)
  | opt (p : Char → Bool)

/-- The regexp `x+` (greedy or not) is `x` followed by `x*` of the same kind. -/
def Re.plus (p : Char → Bool) (greedy : Bool) : Re := .seq (.one p) (.star p greedy)

/-- Remove the literal `l` from the front of `s`. -/
def dropLit : Str → Str → Option Str
  | [], s => some s
  | _ :: _, [] => none
  | a :: l, c :: s => if a = c then dropLit l s else none

/-- Backtracking run of `x*` (greedy: longest first) or `x*?` (shortest first)
with continuation `k` for the rest of the pattern. -/
def starRun {β : Type} (p : Char → Bool) (greedy : Bool) (k : Str → Option β) : Str → Option β
  | [] => k []
  | c :: t =>
    if p c then
      if greedy then
        match starRun p greedy k t with
        | some x => some x
        | none => k (c :: t)
      else
        match k (c :: t) with
        | some x => some x
        | none => starRun p greedy k t
    else k (c :: t)

/-- Backtracking run of a regexp at the front of the input; `k` receives what
is left of the input and fails to make the matcher try its next choice. -/
def Re.run {β : Type} : Re → Str → (Str → Option β) → Option β
  | .one p, s, k =>
    match s with
    | c :: t => if p c then k t else none
    | [] => none
  | .lit l, s, k =>
    match dropLit l s with
    | some t => k t
    | none => none
  | .seq a b, s, k => a.run s (fun r => b.run r k)
  | .star p g, s, k => starRun p g k s
  | .opt p, s, k =>
    match s with
    | c :: t =>
      if p c then
        match k t with
        | some x => some x
        | none => k (c :: t)
      else k (c :: t)
    | [] => k []

/-- A regexp with one capture group: what precedes the group, the group, and
what follows it. -/
structure Pattern where
  pre : Re
  grp : Re
  post : Re

/-- First match of the pattern starting at the front of `s`, in backtracking
order: the text of the capture group and the length of the whole match. -/
def Pattern.matchAt (P : Pattern) (s : Str) : Option (Str × Nat) :=
  P.pre.run s fun r1 =>
    P.grp.run r1 fun r2 =>
      P.post.run r2 fun r3 =>
        some (r1.take (r1.length - r2.length), s.length - r3.length)

/-- Scan of `FindAllStringSubmatch(s, -1)`, returning `match[1]` of every
match: `skip` runes still belong to the previous match; otherwise the pattern
is tried at the current position and, when it fails, one rune further.  None
of the program's patterns matches the empty string, so a match always
consumes at least one rune. -/
def findAllAux (P : Pattern) : Nat → Str → List Str
  | _, [] => []
  | n + 1, _ :: t => findAllAux P n t
  | 0, c :: t =>
    match P.matchAt (c :: t) with
    | some (cap, len) => cap :: findAllAux P (len - 1) t
    | none => findAllAux P 0 t

/-- The list of `match[1]` over `FindAllStringSubmatch(s, -1)`. -/
def findAllSubmatch (P : Pattern) (s : Str) : List Str := findAllAux P 0 s

/-- Does the regexp match at the front of some suffix of the input
(`MatchString`, an unanchored search)? -/
def Re.matchString (re : Re) : Str → Bool
  | [] => (re.run [] (fun _ => some ())).isSome
  | c :: t => (re.run (c :: t) (fun _ => some ())).isSome || re.matchString t

/-! ## The program -/

/-- Pattern `<script.*?src="(.*?)".*?></script>`. -/
def jsFilesRegex : Pattern where
  pre := .seq (.lit "<script".toList) (.seq (.star isDot false) (.lit ("src=".toList ++ [dquote])))
  grp := .star isDot false
  post := .seq (.lit [dquote]) (.seq (.star isDot false) (.lit "></script>".toList))

/-- Pattern `['"](/[^"'\s]+)['"]`. -/
def routeRegex : Pattern where
  pre := .one isQuote
  grp := .seq (.lit ['/']) (Re.plus isRouteBody true)
  post := .one isQuote

/-- Regexp `invalidRoute`: one or more runes outside word runes, hyphen and slash. -/
def invalidRoute : Re := Re.plus isInvalidRouteChar true

/-- Pattern `require\(["']([^"']+)["']\)`. -/
def depRegex : Pattern where
  pre := .seq (.lit "require(".toList) (.one isQuote)
  grp := Re.plus isDepChar true
  post := .seq (.one isQuote) (.lit [')'])

/-- Pattern `["']([a-zA-Z0-9\-_=]+\.[a-zA-Z0-9\-_=]+\.?[a-zA-Z0-9\-_+=/]*?)["']`. -/
def tokenRegex : Pattern where
  pre := .one isQuote
  grp := .seq (Re.plus isTokenChar true) (.seq (.lit ['.']) (.seq (Re.plus isTokenChar true)
    (.seq (.opt (fun c => c == '.')) (.star isTokenTailChar false))))
  post := .one isQuote

/-- The record `JSFileInfo`. -/
structure JSFileInfo where
  URL : Str
  Routes : List Str
  Dependencies : List Str
  Tokens : List Str
deriving DecidableEq, Repr

/-- The record `Report`.  Its counters are Go `int`s that count elements of
slices held in memory, so they never overflow and are natural numbers here. -/
structure Report where
  Domain : Str
  JSFiles : List JSFileInfo
  TotalRoutes : Nat
  TotalDeps : Nat
  TotalTokens : Nat
  AllRoutes : List Str
  AllDependencies : List Str
  AllTokens : List Str
deriving DecidableEq, Repr

/-- What the program takes from outside: `httpGet url` is the body read from
`http.Get(url)` or the error of the request or of the read;
`jwtParseValid s` tells whether `jwt.Parse(s, keyFunc)`, with the program's
key function returning a nil key, gave `err == nil` and `Valid`. -/
structure Env where
  httpGet : Str → Except Str Str
  jwtParseValid : Str → Bool

/-- Function `findJSFiles`; its error result is always nil. -/
def findJSFiles (domain source : Str) : List Str :=
  (findAllSubmatch jsFilesRegex source).map fun jsFile =>
    if !("http".toList.isPrefixOf jsFile) && !("//".toList.isPrefixOf jsFile) then
      domain ++ jsFile
    else jsFile

/-- `strings.Trim(s, cutset)`: leading and trailing runes of the cutset removed. -/
def trim (cutset : Char → Bool) (s : Str) : Str :=
  (s.dropWhile cutset).rdropWhile cutset

/-- The cutset `" '\""` of the program's `strings.Trim` call. -/
def isTrimChar (c : Char) : Bool := c == ' ' || c == squote || c == dquote

/-- The route loop of `analyzeJSFile` on the script text. -/
def extractRoutes (jsContent : Str) : List Str :=
  (findAllSubmatch routeRegex jsContent).filter fun route => !(invalidRoute.matchString route)

/-- The dependency loop of `analyzeJSFile` on the script text. -/
def extractDependencies (jsContent : Str) : List Str :=
  findAllSubmatch depRegex jsContent

/-- The token loop of `analyzeJSFile` on the script text. -/
def extractTokens (jwtParseValid : Str → Bool) (jsContent : Str) : List Str :=
  (findAllSubmatch tokenRegex jsContent).filter fun tok => jwtParseValid (trim isTrimChar tok)

/-- Function `analyzeJSFile`. -/
def analyzeJSFile (env : Env) (url : Str) : Except Str JSFileInfo :=
  let url := if "//".toList.isPrefixOf url then "https:".toList ++ url else url
  match env.httpGet url with
  | .error err => .error err
  | .ok jsContent =>
    .ok { URL := url
          Routes := extractRoutes jsContent
          Dependencies := extractDependencies jsContent
          Tokens := extractTokens env.jwtParseValid jsContent }

/-- The loop of `generateReport` from the report built so far. -/
def generateReportLoop (env : Env) : Report → List Str → Except Str Report
  | report, [] => .ok report
  | report, jsFile :: rest =>
    match analyzeJSFile env jsFile with
    | .error err => .error ("Failed to analyze ".toList ++ jsFile ++ ": ".toList ++ err)
    | .ok info =>
      generateReportLoop env
        { report with
          JSFiles := report.JSFiles ++ [info]
          TotalRoutes := report.TotalRoutes + info.Routes.length
          TotalDeps := report.TotalDeps + info.Dependencies.length
          TotalTokens := report.TotalTokens + info.Tokens.length
          AllRoutes := report.AllRoutes ++ info.Routes
          AllDependencies := report.AllDependencies ++ info.Dependencies
          AllTokens := report.AllTokens ++ info.Tokens } rest

/-- Function `generateReport`. -/
def generateReport (env : Env) (domain : Str) (jsFiles : List Str) : Except Str Report :=
  generateReportLoop env
    { Domain := domain, JSFiles := [], TotalRoutes := 0, TotalDeps := 0, TotalTokens := 0
      AllRoutes := [], AllDependencies := [], AllTokens := [] } jsFiles

/-- The report obtained from `report` by appending the records `infos`: the
state of the loop of `generateReport` after that many successful rounds. -/
def Report.extend (report : Report) (infos : List JSFileInfo) : Report :=
  { report with
    JSFiles := report.JSFiles ++ infos
    TotalRoutes := report.TotalRoutes + (infos.map fun i => i.Routes.length).sum
    TotalDeps := report.TotalDeps + (infos.map fun i => i.Dependencies.length).sum
    TotalTokens := report.TotalTokens + (infos.map fun i => i.Tokens.length).sum
    AllRoutes := report.AllRoutes ++ (infos.map fun i => i.Routes).flatten
    AllDependencies := report.AllDependencies ++ (infos.map fun i => i.Dependencies).flatten
    AllTokens := report.AllTokens ++ (infos.map fun i => i.Tokens).flatten }

/-- The URL that `analyzeJSFile` requests and records: `https:` is put in
front of a protocol-relative URL. -/
def resolvedURL (url : Str) : Str :=
  if "//".toList.isPrefixOf url then "https:".toList ++ url else url

/-- An environment that serves `body` at `url` and fails for any other URL,
and whose token check accepts nothing. -/
def singlePageEnv (url body : Str) : Env where
  httpGet := fun u => if u = url then .ok body else .error "no such host".toList
  jwtParseValid := fun _ => false

/-- The language of a regexp: the texts it can consume. -/
def Re.Matches : Re → Str → Prop
  | .one p, u => ∃ c, u = [c] ∧ p c = true
  | .lit l, u => u = l
  | .seq a b, u => ∃ v w, u = v ++ w ∧ a.Matches v ∧ b.Matches w
  | .star p _, u => ∀ c ∈ u, p c = true
  | .opt p, u => u = [] ∨ ∃ c, u = [c] ∧ p c = true


/-- The character set of the specification for routes: the letters `A-Z` and
`a-z`, the digits, `_`, `/` and `-`. -/
def InRouteCharset (c : Char) : Prop :=
  ('A' ≤ c ∧ c ≤ 'Z') ∨ ('a' ≤ c ∧ c ≤ 'z') ∨ ('0' ≤ c ∧ c ≤ '9') ∨ c = '_' ∨ c = '/' ∨ c = '-'

/-- A string written as a double-quoted literal. -/
def quoteLit (s : Str) : Str := dquote :: (s ++ [dquote])

/-- The strings of `ss` written as double-quoted literals with `sep` between
consecutive literals. -/
def joinLits (sep : Str) : List Str → Str
  | [] => []
  | [s] => quoteLit s
  | s :: s' :: rest => quoteLit s ++ (sep ++ joinLits sep (s' :: rest))

/-- The string is `/` followed by at least one more rune. -/
def hasRouteForm : Str → Bool
  | a :: _ :: _ => a == '/'
  | _ => false

/-- The string is `/` followed by one or more letters, digits, `_`, `/` or `-`. -/
def isRouteShape : Str → Bool
  | a :: c :: w => a == '/' && (c :: w).all isRouteChar
  | _ => false

/-- The arguments of the calls met in a scan from left to right, where
`callAt` recognises a call at the front of the text and gives its argument
and its length; the scan passes over a call it has found (`skip` counts the
runes of that call still ahead) and otherwise moves one rune on. -/
def scanCalls (callAt : Str → Option (Str × Nat)) : Nat → Str → List Str
  | _, [] => []
  | n + 1, _ :: t => scanCalls callAt n t
  | 0, c :: t =>
    match callAt (c :: t) with
    | some (arg, len) => arg :: scanCalls callAt (len - 1) t
    | none => scanCalls callAt 0 t

/-- A call `require("...")` or `require('...')` at the front of the text, as
the specification words it: `require(`, an opening quote, the argument up to
the next quote of the same kind, and `)`.  Gives the argument and the length
of the call. -/
def requireCallAt (s : Str) : Option (Str × Nat) :=
  match dropLit "require(".toList s with
  | some (q :: r) =>
    if isQuote q then
      match r.dropWhile (fun c => c != q) with
      | _ :: b :: _ =>
        if b = ')' then
          some (r.takeWhile (fun c => c != q), (r.takeWhile (fun c => c != q)).length + 11)
        else none
      | _ => none
    else none
  | _ => none

/-- The quoted arguments of every `require("...")` / `require('...')`
occurrence of the text, scanned left to right, as the specification words
it. -/
def specRequireArgs (t : Str) : List Str := scanCalls requireCallAt 0 t

/-- A call at the front of the text in the looser form the program looks
for: `require(`, a quote of either kind, a non-empty argument holding no
quote of either kind, a quote of either kind, and `)`. -/
def looseRequireAt (s : Str) : Option (Str × Nat) :=
  match dropLit "require(".toList s with
  | some (q :: r) =>
    if isQuote q && !(r.takeWhile isDepChar).isEmpty then
      match r.dropWhile isDepChar with
      | q2 :: b :: _ =>
        if isQuote q2 && b == ')' then
          some (r.takeWhile isDepChar, (r.takeWhile isDepChar).length + 11)
        else none
      | _ => none
    else none
  | _ => none

/-- The arguments of every call of the looser form, scanned left to right. -/
def looseRequireArgs (t : Str) : List Str := scanCalls looseRequireAt 0 t

/-- The segments of a text between its `.` runes. -/
def splitDots : Str → List Str
  | [] => [[]]
  | c :: t =>
    if c = '.' then [] :: splitDots t
    else
      match splitDots t with
      | seg :: segs => (c :: seg) :: segs
      | [] => [[c]]

/-- The notion of a structurally well-formed candidate in the
specification: three non-empty dot-separated segments of which the first two
are independently decodable, the third (the signature) being left unchecked.
`decodable` is the decoding test of one segment, which the specification
does not detail.  This is the specification's predicate, not the outcome of
`jwt.Parse`. -/
def structurallyWellFormed (decodable : Str → Bool) (tok : Str) : Bool :=
  match splitDots tok with
  | [h, p, sig] => !h.isEmpty && !p.isEmpty && !sig.isEmpty && decodable h && decodable p
  | _ => false

/-- A correctly signed token in the compact three-segment format: a header
naming the algorithm HS256 and the type JWT, a payload with the fields `sub`,
`name` and `iat`, and the HS256 signature of the two under the key
`your-256-bit-secret`. -/
def failingToken : Str :=
  ("eyJhbGciOiJIUzI1NiIsInR5cCI6IkpXVCJ9." ++
    "eyJzdWIiOiIxMjM0NTY3ODkwIiwibmFtZSI6IkpvaG4gRG9lIiwiaWF0IjoxNTE2MjM5MDIyfQ." ++
    "SflKxwRJSMeKKF2QT4fwpMeJf36POk6yJV_adQssw5c").toList

/-- A script text that assigns `failingToken`, double-quoted, to a variable. -/
def failingTokenScript : Str :=
  "var t = ".toList ++ dquote :: (failingToken ++ dquote :: ";".toList)

/-! ## The matcher -/

theorem dropLit_eq_some : ∀ (l s t : Str), dropLit l s = some t ↔ s = l ++ t := by
  intro l
  induction l with
  | nil => intro s t; simp [dropLit, eq_comm]
  | cons a l ih =>
    intro s t
    cases s with
    | nil => simp [dropLit]
    | cons c s =>
      simp only [dropLit, List.cons_append, List.cons.injEq]
      by_cases hac : a = c
      · simp [hac, ih]
      · simp [hac, eq_comm]

theorem starRun_sound {β : Type} (p : Char → Bool) (g : Bool) (k : Str → Option β) (x : β) :
    ∀ s : Str, starRun p g k s = some x →
      ∃ u v, s = u ++ v ∧ (∀ c ∈ u, p c = true) ∧ k v = some x := by
  intro s
  induction s with
  | nil => intro h; exact ⟨[], [], rfl, by simp, h⟩
  | cons c t ih =>
    intro h
    have hstop : k (c :: t) = some x → ∃ u v, c :: t = u ++ v ∧ (∀ c ∈ u, p c = true) ∧
        k v = some x := fun hk => ⟨[], c :: t, rfl, by simp, hk⟩
    unfold starRun at h
    by_cases hp : p c = true
    · have hmore : starRun p g k t = some x → ∃ u v, c :: t = u ++ v ∧
          (∀ c ∈ u, p c = true) ∧ k v = some x := by
        intro hs
        obtain ⟨u, v, rfl, hu, hk⟩ := ih hs
        exact ⟨c :: u, v, rfl, by simpa [hp] using hu, hk⟩
      simp only [hp, if_true] at h
      cases g with
      | true =>
        simp only [if_true] at h
        cases hs : starRun p true k t with
        | some y => rw [hs] at h; cases h; exact hmore hs
        | none => rw [hs] at h; exact hstop h
      | false =>
        simp only [Bool.false_eq_true, if_false] at h
        cases hk : k (c :: t) with
        | some y => rw [hk] at h; cases h; exact hstop hk
        | none => rw [hk] at h; exact hmore h
    · simp only [hp, if_false] at h
      exact hstop h

theorem Re.run_sound {β : Type} (re : Re) :
    ∀ (s : Str) (k : Str → Option β) (x : β), re.run s k = some x →
      ∃ u v, s = u ++ v ∧ re.Matches u ∧ k v = some x := by
  induction re with
  | one p =>
    intro s k x h
    cases s with
    | nil => simp [Re.run] at h
    | cons c t =>
      simp only [Re.run] at h
      by_cases hp : p c = true
      · simp only [hp, if_true] at h
        exact ⟨[c], t, rfl, ⟨c, rfl, hp⟩, h⟩
      · simp [hp] at h
  | lit l =>
    intro s k x h
    simp only [Re.run] at h
    cases hd : dropLit l s with
    | none => rw [hd] at h; cases h
    | some t =>
      rw [hd] at h
      exact ⟨l, t, (dropLit_eq_some l s t).mp hd, rfl, h⟩
  | seq a b iha ihb =>
    intro s k x h
    simp only [Re.run] at h
    obtain ⟨u, v, rfl, hu, hk⟩ := iha _ _ _ h
    obtain ⟨u', v', rfl, hu', hk'⟩ := ihb _ _ _ hk
    exact ⟨u ++ u', v', by simp, ⟨u, u', rfl, hu, hu'⟩, hk'⟩
  | star p g =>
    intro s k x h
    simp only [Re.run] at h
    obtain ⟨u, v, hs, hu, hk⟩ := starRun_sound p g k x s h
    exact ⟨u, v, hs, hu, hk⟩
  | opt p =>
    intro s k x h
    cases s with
    | nil => exact ⟨[], [], rfl, Or.inl rfl, by simpa [Re.run] using h⟩
    | cons c t =>
      simp only [Re.run] at h
      by_cases hp : p c = true
      · simp only [hp, if_true] at h
        cases hk : k t with
        | some y => rw [hk] at h; cases h; exact ⟨[c], t, rfl, Or.inr ⟨c, rfl, hp⟩, hk⟩
        | none => rw [hk] at h; exact ⟨[], c :: t, rfl, Or.inl rfl, h⟩
      · simp only [hp, if_false] at h
        exact ⟨[], c :: t, rfl, Or.inl rfl, h⟩

theorem Pattern.matchAt_sound (P : Pattern) (s cap : Str) (len : Nat)
    (h : P.matchAt s = some (cap, len)) :
    ∃ u w rest, s = u ++ cap ++ w ++ rest ∧ P.pre.Matches u ∧ P.grp.Matches cap ∧
      P.post.Matches w ∧ len = u.length + cap.length + w.length := by
  unfold Pattern.matchAt at h
  obtain ⟨u, r1, rfl, hu, h1⟩ := Re.run_sound _ _ _ _ h
  obtain ⟨v, r2, rfl, hv, h2⟩ := Re.run_sound _ _ _ _ h1
  obtain ⟨w, r3, rfl, hw, h3⟩ := Re.run_sound _ _ _ _ h2
  simp only [Option.some.injEq, Prod.mk.injEq] at h3
  obtain ⟨hcap, hlen⟩ := h3
  have hcap' : cap = v := by
    rw [← hcap]
    simp
  subst hcap'
  refine ⟨u, w, r3, by simp, hu, hv, hw, ?_⟩
  rw [← hlen]
  simp
  omega

theorem findAllAux_mem (P : Pattern) (cap : Str) :
    ∀ (s : Str) (n : Nat), cap ∈ findAllAux P n s →
      ∃ t len, t <:+ s ∧ P.matchAt t = some (cap, len) := by
  intro s
  induction s with
  | nil => intro n h; simp [findAllAux] at h
  | cons c t ih =>
    intro n h
    cases n with
    | succ n =>
      simp only [findAllAux] at h
      obtain ⟨t', len, hsuf, hm⟩ := ih n h
      exact ⟨t', len, List.IsSuffix.trans hsuf (List.suffix_cons c t), hm⟩
    | zero =>
      simp only [findAllAux] at h
      cases hm : P.matchAt (c :: t) with
      | none =>
        rw [hm] at h
        obtain ⟨t', len, hsuf, hm'⟩ := ih 0 h
        exact ⟨t', len, List.IsSuffix.trans hsuf (List.suffix_cons c t), hm'⟩
      | some r =>
        obtain ⟨cap', len⟩ := r
        rw [hm] at h
        simp only [List.mem_cons] at h
        rcases h with rfl | h
        · exact ⟨c :: t, len, List.suffix_refl _, hm⟩
        · obtain ⟨t', len', hsuf, hm'⟩ := ih _ h
          exact ⟨t', len', List.IsSuffix.trans hsuf (List.suffix_cons c t), hm'⟩

/-! ## The aggregator -/

theorem generateReportLoop_ok (env : Env) :
    ∀ (jsFiles : List Str) (report r : Report),
      generateReportLoop env report jsFiles = .ok r →
      ∃ infos : List JSFileInfo,
        jsFiles.map (analyzeJSFile env) = infos.map Except.ok ∧ r = report.extend infos := by
  intro jsFiles
  induction jsFiles with
  | nil =>
    intro report r h
    refine ⟨[], rfl, ?_⟩
    simp only [generateReportLoop, Except.ok.injEq] at h
    subst h
    simp [Report.extend]
  | cons u rest ih =>
    intro report r h
    simp only [generateReportLoop] at h
    cases hu : analyzeJSFile env u with
    | error e => rw [hu] at h; cases h
    | ok info =>
      rw [hu] at h
      obtain ⟨infos, hmap, hr⟩ := ih _ _ h
      refine ⟨info :: infos, ?_, ?_⟩
      · simp [hu, hmap]
      · subst hr
        simp [Report.extend, Nat.add_assoc]

theorem generateReportLoop_total (env : Env) :
    ∀ (jsFiles : List Str) (report : Report),
      (∀ u ∈ jsFiles, ∃ info, analyzeJSFile env u = .ok info) →
      ∃ r, generateReportLoop env report jsFiles = .ok r := by
  intro jsFiles
  induction jsFiles with
  | nil => intro report _; exact ⟨report, rfl⟩
  | cons u rest ih =>
    intro report h
    obtain ⟨info, hu⟩ := h u (List.mem_cons_self _ _)
    simp only [generateReportLoop, hu]
    exact ih _ (fun v hv => h v (List.mem_cons_of_mem _ hv))

theorem generateReportLoop_fails (env : Env) :
    ∀ (jsFiles : List Str) (report : Report),
      (∃ u ∈ jsFiles, ∃ e, analyzeJSFile env u = .error e) →
      ∃ e, generateReportLoop env report jsFiles = .error e := by
  intro jsFiles
  induction jsFiles with
  | nil => intro report h; obtain ⟨u, hu, _⟩ := h; cases hu
  | cons u rest ih =>
    intro report h
    simp only [generateReportLoop]
    cases hu : analyzeJSFile env u with
    | error e => exact ⟨_, rfl⟩
    | ok info =>
      obtain ⟨v, hv, e, he⟩ := h
      rcases List.mem_cons.mp hv with rfl | hv
      · rw [hu] at he; cases he
      · exact ih _ ⟨v, hv, e, he⟩

theorem analyzeJSFile_URL (env : Env) (url : Str) (info : JSFileInfo)
    (h : analyzeJSFile env url = .ok info) : info.URL = resolvedURL url := by
  unfold analyzeJSFile at h
  simp only at h
  split at h
  · cases h
  · cases h; rfl

theorem analyzeJSFile_ok (env : Env) (url body : Str)
    (h : env.httpGet (resolvedURL url) = .ok body) :
    analyzeJSFile env url =
      .ok { URL := resolvedURL url, Routes := extractRoutes body
            Dependencies := extractDependencies body
            Tokens := extractTokens env.jwtParseValid body } := by
  unfold resolvedURL at h
  unfold analyzeJSFile resolvedURL
  simp only [h]

/-- C1: when every analysis succeeds, `generateReport` returns a report whose
pooled lists are the concatenations of the per-file lists in file order and
whose totals are the lengths of the pooled lists and the sums of the
per-file lengths, for routes, dependencies and tokens alike. -/
theorem generateReport_pooled_lists_and_totals (env : Env) (domain : Str) (jsFiles : List Str)
    (h : ∀ u ∈ jsFiles, ∃ info, analyzeJSFile env u = .ok info) :
    ∃ r, generateReport env domain jsFiles = .ok r ∧
      r.AllRoutes = (r.JSFiles.map fun f => f.Routes).flatten ∧
      r.AllDependencies = (r.JSFiles.map fun f => f.Dependencies).flatten ∧
      r.AllTokens = (r.JSFiles.map fun f => f.Tokens).flatten ∧
      r.TotalRoutes = r.AllRoutes.length ∧
      r.TotalDeps = r.AllDependencies.length ∧
      r.TotalTokens = r.AllTokens.length ∧
      r.TotalRoutes = (r.JSFiles.map fun f => f.Routes.length).sum ∧
      r.TotalDeps = (r.JSFiles.map fun f => f.Dependencies.length).sum ∧
      r.TotalTokens = (r.JSFiles.map fun f => f.Tokens.length).sum := by
  obtain ⟨r, hr⟩ := generateReportLoop_total env jsFiles
    { Domain := domain, JSFiles := [], TotalRoutes := 0, TotalDeps := 0, TotalTokens := 0
      AllRoutes := [], AllDependencies := [], AllTokens := [] } h
  refine ⟨r, hr, ?_⟩
  obtain ⟨infos, _, rfl⟩ := generateReportLoop_ok env _ _ _ hr
  simp [Report.extend, List.length_flatten, Function.comp_def]

/-- Witness of C1 on two script URLs served by a constant environment. -/
theorem generateReport_pooled_lists_and_totals_witness :
    ∃ r, generateReport ⟨fun _ => .ok "require('a')".toList, fun _ => false⟩ "d".toList
        ["//x/a.js".toList, "b.js".toList] = .ok r ∧
      r.AllRoutes = (r.JSFiles.map fun f => f.Routes).flatten ∧
      r.AllDependencies = (r.JSFiles.map fun f => f.Dependencies).flatten ∧
      r.AllTokens = (r.JSFiles.map fun f => f.Tokens).flatten ∧
      r.TotalRoutes = r.AllRoutes.length ∧
      r.TotalDeps = r.AllDependencies.length ∧
      r.TotalTokens = r.AllTokens.length ∧
      r.TotalRoutes = (r.JSFiles.map fun f => f.Routes.length).sum ∧
      r.TotalDeps = (r.JSFiles.map fun f => f.Dependencies.length).sum ∧
      r.TotalTokens = (r.JSFiles.map fun f => f.Tokens.length).sum :=
  generateReport_pooled_lists_and_totals _ _ _ (fun _ _ => ⟨_, rfl⟩)

/-- C6: `generateReport` returns an error, and so no report, exactly when the
analysis of some URL of the list fails, and returns a report, and so no
error, exactly when every analysis succeeds. -/
theorem generateReport_no_partial_failure (env : Env) (domain : Str) (jsFiles : List Str) :
    ((∃ e, generateReport env domain jsFiles = .error e) ↔
        ∃ u ∈ jsFiles, ∃ e, analyzeJSFile env u = .error e) ∧
      ((∃ r, generateReport env domain jsFiles = .ok r) ↔
        ∀ u ∈ jsFiles, ∃ info, analyzeJSFile env u = .ok info) := by
  have hsucc : (∀ u ∈ jsFiles, ∃ info, analyzeJSFile env u = .ok info) →
      ∃ r, generateReport env domain jsFiles = .ok r :=
    fun h => generateReportLoop_total env jsFiles _ h
  have hfail : (∃ u ∈ jsFiles, ∃ e, analyzeJSFile env u = .error e) →
      ∃ e, generateReport env domain jsFiles = .error e :=
    fun h => generateReportLoop_fails env jsFiles _ h
  have hdich : (∀ u ∈ jsFiles, ∃ info, analyzeJSFile env u = .ok info) ∨
      ∃ u ∈ jsFiles, ∃ e, analyzeJSFile env u = .error e := by
    by_cases hall : ∀ u ∈ jsFiles, ∃ info, analyzeJSFile env u = .ok info
    · exact Or.inl hall
    · right
      push_neg at hall
      obtain ⟨u, hu, hno⟩ := hall
      refine ⟨u, hu, ?_⟩
      cases hr : analyzeJSFile env u with
      | error e => exact ⟨e, rfl⟩
      | ok info => exact absurd hr (hno info)
  constructor
  · constructor
    · rintro ⟨e, he⟩
      rcases hdich with hall | hbad
      · obtain ⟨r, hr⟩ := hsucc hall
        rw [hr] at he; cases he
      · exact hbad
    · exact hfail
  · constructor
    · rintro ⟨r, hr⟩
      rcases hdich with hall | hbad
      · exact hall
      · obtain ⟨e, he⟩ := hfail hbad
        rw [he] at hr; cases hr
    · exact hsucc

/-- C7: when every analysis succeeds the report lists one record per URL, in
the order of the URLs: the record at index `i` is the one produced by
analysing the URL at index `i`, and its URL field is that URL, with `https:`
in front when the URL starts with `//`. -/
theorem generateReport_preserves_discovery_order (env : Env) (domain : Str)
    (jsFiles : List Str) (h : ∀ u ∈ jsFiles, ∃ info, analyzeJSFile env u = .ok info) :
    ∃ r, generateReport env domain jsFiles = .ok r ∧
      r.JSFiles.length = jsFiles.length ∧
      ∀ (i : Nat) (u : Str), jsFiles[i]? = some u →
        ∃ info, r.JSFiles[i]? = some info ∧ analyzeJSFile env u = .ok info ∧
          info.URL = (if "//".toList.isPrefixOf u then "https:".toList ++ u else u) := by
  obtain ⟨r, hr⟩ := generateReportLoop_total env jsFiles
    { Domain := domain, JSFiles := [], TotalRoutes := 0, TotalDeps := 0, TotalTokens := 0
      AllRoutes := [], AllDependencies := [], AllTokens := [] } h
  refine ⟨r, hr, ?_⟩
  obtain ⟨infos, hmap, rfl⟩ := generateReportLoop_ok env _ _ _ hr
  have hlen : infos.length = jsFiles.length := by
    have := congrArg List.length hmap
    simpa using this.symm
  refine ⟨by simpa [Report.extend] using hlen, ?_⟩
  intro i u hi
  have hget := congrArg (fun l => l[i]?) hmap
  simp only [List.getElem?_map, hi, Option.map_some'] at hget
  cases hinfo : infos[i]? with
  | none => rw [hinfo] at hget; cases hget
  | some info =>
    rw [hinfo] at hget
    simp only [Option.map_some', Option.some.injEq] at hget
    exact ⟨info, by simpa [Report.extend] using hinfo, hget, analyzeJSFile_URL env u info hget⟩

/-- Witness of C7 on a protocol-relative and a relative script URL. -/
theorem generateReport_preserves_discovery_order_witness :
    ∃ r, generateReport ⟨fun _ => .ok "require('a')".toList, fun _ => false⟩ "d".toList
        ["//x/a.js".toList, "b.js".toList] = .ok r ∧
      r.JSFiles.length = ["//x/a.js".toList, "b.js".toList].length ∧
      ∀ (i : Nat) (u : Str), ["//x/a.js".toList, "b.js".toList][i]? = some u →
        ∃ info, r.JSFiles[i]? = some info ∧
          analyzeJSFile ⟨fun _ => .ok "require('a')".toList, fun _ => false⟩ u = .ok info ∧
          info.URL = (if "//".toList.isPrefixOf u then "https:".toList ++ u else u) :=
  generateReport_preserves_discovery_order _ _ _ (fun _ _ => ⟨_, rfl⟩)

/-! ## The script locator -/

/-- C8 (fails in the code): for the page `<script src="http.js"></script>`
and the domain `https://example.com`, `findJSFiles` returns the relative
name `http.js` unchanged, which starts with none of `http://`, `https://`
and `//`. -/
theorem findJSFiles_keeps_relative_http_name :
    findJSFiles "https://example.com".toList "<script src=\"http.js\"></script>".toList
        = ["http.js".toList] ∧
      "http://".toList.isPrefixOf "http.js".toList = false ∧
      "https://".toList.isPrefixOf "http.js".toList = false ∧
      "//".toList.isPrefixOf "http.js".toList = false := by
  decide

/-- C10 (fails in the code): on one line holding an inline script, an image
and a script with a source, `findJSFiles` returns the source of the image
and nothing else, the script with a source being part of that one match. -/
theorem findJSFiles_takes_image_source :
    findJSFiles "https://example.com".toList
        "<script>var a;</script><img src=\"/x.png\"><script src=\"/a.js\"></script>".toList
      = ["https://example.com/x.png".toList] := by
  decide

/-! ## End to end -/

/-- C9: from the page `<script src="/app.js"></script>` of
`https://example.com` the locator returns `https://example.com/app.js`, and
when that URL serves `fetch("/api/login"); require("lodash");` the report
has one file with that route and that dependency, no token, and totals 1, 1
and 0. -/
theorem end_to_end_scenario (env : Env)
    (h : env.httpGet "https://example.com/app.js".toList
      = .ok "fetch(\"/api/login\"); require(\"lodash\");".toList) :
    findJSFiles "https://example.com".toList "<script src=\"/app.js\"></script>".toList
        = ["https://example.com/app.js".toList] ∧
      generateReport env "https://example.com".toList
          (findJSFiles "https://example.com".toList
            "<script src=\"/app.js\"></script>".toList)
        = .ok { Domain := "https://example.com".toList
                JSFiles := [{ URL := "https://example.com/app.js".toList
                              Routes := ["/api/login".toList]
                              Dependencies := ["lodash".toList]
                              Tokens := [] }]
                TotalRoutes := 1
                TotalDeps := 1
                TotalTokens := 0
                AllRoutes := ["/api/login".toList]
                AllDependencies := ["lodash".toList]
                AllTokens := [] } := by
  have hloc : findJSFiles "https://example.com".toList
      "<script src=\"/app.js\"></script>".toList = ["https://example.com/app.js".toList] := by
    decide
  have hres : resolvedURL "https://example.com/app.js".toList
      = "https://example.com/app.js".toList := by decide
  have hroutes : extractRoutes "fetch(\"/api/login\"); require(\"lodash\");".toList
      = ["/api/login".toList] := by decide
  have hdeps : extractDependencies "fetch(\"/api/login\"); require(\"lodash\");".toList
      = ["lodash".toList] := by decide
  have htoks : findAllSubmatch tokenRegex
      "fetch(\"/api/login\"); require(\"lodash\");".toList = [] := by decide
  refine ⟨hloc, ?_⟩
  rw [hloc]
  rw [← hres] at h
  simp only [generateReport, generateReportLoop, analyzeJSFile_ok env _ _ h, hres, hroutes,
    hdeps, extractTokens, htoks]
  rfl

/-- Witness of C9 with an environment serving the script at its URL only. -/
theorem end_to_end_scenario_witness :
    findJSFiles "https://example.com".toList "<script src=\"/app.js\"></script>".toList
        = ["https://example.com/app.js".toList] ∧
      generateReport
          (singlePageEnv "https://example.com/app.js".toList
            "fetch(\"/api/login\"); require(\"lodash\");".toList)
          "https://example.com".toList
          (findJSFiles "https://example.com".toList
            "<script src=\"/app.js\"></script>".toList)
        = .ok { Domain := "https://example.com".toList
                JSFiles := [{ URL := "https://example.com/app.js".toList
                              Routes := ["/api/login".toList]
                              Dependencies := ["lodash".toList]
                              Tokens := [] }]
                TotalRoutes := 1
                TotalDeps := 1
                TotalTokens := 0
                AllRoutes := ["/api/login".toList]
                AllDependencies := ["lodash".toList]
                AllTokens := [] } :=
  end_to_end_scenario _ (by simp [singlePageEnv])


/-! ## Routes -/

theorem starRun_isSome {β : Type} (p : Char → Bool) (g : Bool) (k : Str → Option β)
    (hk : ∀ r, (k r).isSome = true) : ∀ s : Str, (starRun p g k s).isSome = true := by
  intro s
  induction s with
  | nil => exact hk []
  | cons c t ih =>
    unfold starRun
    by_cases hp : p c = true
    · simp only [hp, if_true]
      cases g with
      | true =>
        simp only [if_true]
        cases hs : starRun p true k t with
        | some y => rfl
        | none => rw [hs] at ih; cases ih
      | false =>
        simp only [Bool.false_eq_true, if_false]
        cases hc : k (c :: t) with
        | some y => rfl
        | none => have := hk (c :: t); rw [hc] at this; cases this
    · simp only [hp, if_false]
      exact hk _

theorem plus_run_isSome (p : Char → Bool) (g : Bool) (s : Str) :
    ((Re.plus p g).run s (fun _ => some ())).isSome = (s.head?.map p).getD false := by
  cases s with
  | nil => simp [Re.plus, Re.run]
  | cons c t =>
    simp only [Re.plus, Re.run, List.head?_cons, Option.map_some', Option.getD_some]
    by_cases hp : p c = true
    · simp only [hp, if_true]
      exact @starRun_isSome Unit p g (fun _ => some ()) (fun _ => rfl) t
    · simp [hp]

theorem matchString_plus (p : Char → Bool) (g : Bool) :
    ∀ s : Str, (Re.plus p g).matchString s = s.any p := by
  intro s
  induction s with
  | nil => simp [Re.matchString, plus_run_isSome]
  | cons c t ih =>
    rw [Re.matchString, ih, plus_run_isSome]
    simp

theorem invalidRoute_matchString (s : Str) :
    invalidRoute.matchString s = s.any isInvalidRouteChar :=
  matchString_plus _ _ s

theorem not_invalidRoute_iff (s : Str) :
    (!(invalidRoute.matchString s)) = true ↔ ∀ c ∈ s, isRouteChar c = true := by
  rw [invalidRoute_matchString]
  simp [isInvalidRouteChar]

theorem routeRegex_capture (s cap : Str) (len : Nat)
    (h : routeRegex.matchAt s = some (cap, len)) :
    ∃ c w, cap = '/' :: c :: w ∧ ∀ d ∈ c :: w, isRouteBody d = true := by
  obtain ⟨u, w, rest, _, _, hg, _, _⟩ := Pattern.matchAt_sound _ _ _ _ h
  simp only [routeRegex, Re.plus, Re.Matches] at hg
  obtain ⟨v1, v2, rfl, rfl, v3, v4, rfl, ⟨c, rfl, hc⟩, hv4⟩ := hg
  refine ⟨c, v4, rfl, ?_⟩
  intro d hd
  rcases List.mem_cons.mp hd with rfl | hd
  · exact hc
  · exact hv4 d hd

theorem isRouteChar_charset (c : Char) (h : isRouteChar c = true) : InRouteCharset c := by
  simp only [isRouteChar, isWord, isAlnum, Bool.or_eq_true, Bool.and_eq_true,
    decide_eq_true_eq, beq_iff_eq] at h
  unfold InRouteCharset
  tauto

/-- C2: every route that `analyzeJSFile` extracts from a script text is `/`
followed by a non-empty run of letters, digits, `_`, `/` and `-`; so no route
holds `?`, `#`, `.`, a quote character or whitespace. -/
theorem extractRoutes_route_shape (t route : Str) (h : route ∈ extractRoutes t) :
    ∃ rest, route = '/' :: rest ∧ rest ≠ [] ∧ (∀ c ∈ rest, InRouteCharset c) ∧
      ∀ c ∈ route, c ≠ '?' ∧ c ≠ '#' ∧ c ≠ '.' ∧ c ≠ dquote ∧ c ≠ squote ∧
        isSpace c = false := by
  unfold extractRoutes at h
  rw [List.mem_filter] at h
  obtain ⟨hmem, hvalid⟩ := h
  obtain ⟨s, len, _, hm⟩ := findAllAux_mem _ _ _ _ hmem
  obtain ⟨c, w, rfl, _⟩ := routeRegex_capture _ _ _ hm
  have hall := (not_invalidRoute_iff _).mp hvalid
  refine ⟨c :: w, rfl, by simp, ?_, ?_⟩
  · intro d hd
    exact isRouteChar_charset d (hall d (List.mem_cons_of_mem _ hd))
  · intro d hd
    have hd' := hall d hd
    refine ⟨?_, ?_, ?_, ?_, ?_, ?_⟩
    · rintro rfl; exact absurd hd' (by decide)
    · rintro rfl; exact absurd hd' (by decide)
    · rintro rfl; exact absurd hd' (by decide)
    · rintro rfl; exact absurd hd' (by decide)
    · rintro rfl; exact absurd hd' (by decide)
    · cases hsp : isSpace d with
      | false => rfl
      | true =>
        exfalso
        simp only [isSpace, Bool.or_eq_true, beq_iff_eq] at hsp
        rcases hsp with (((rfl | rfl) | rfl) | rfl) | rfl <;> exact absurd hd' (by decide)

/-- Witness of C2 on the route of the text `"/api/v1/users" and "/api?x=1"`. -/
theorem extractRoutes_route_shape_witness :
    "/api/v1/users".toList ∈ extractRoutes "\"/api/v1/users\" and \"/api?x=1\"".toList ∧
    ∃ rest, "/api/v1/users".toList = '/' :: rest ∧ rest ≠ [] ∧
      (∀ c ∈ rest, InRouteCharset c) ∧
      ∀ c ∈ "/api/v1/users".toList, c ≠ '?' ∧ c ≠ '#' ∧ c ≠ '.' ∧ c ≠ dquote ∧ c ≠ squote ∧
        isSpace c = false :=
  ⟨by decide,
    extractRoutes_route_shape "\"/api/v1/users\" and \"/api?x=1\"".toList _ (by decide)⟩

theorem starRun_greedy_stop {β : Type} (p : Char → Bool) (k : Str → Option β)
    (hk : ∀ c t, p c = true → k (c :: t) = none) :
    ∀ s : Str, starRun p true k s = k (s.dropWhile p) := by
  intro s
  induction s with
  | nil => rfl
  | cons c t ih =>
    unfold starRun
    by_cases hp : p c = true
    · simp only [hp, if_true, List.dropWhile_cons_of_pos]
      rw [ih, hk c t hp]
      cases k (List.dropWhile p t) <;> rfl
    · rw [List.dropWhile_cons_of_neg hp]
      simp [hp]

theorem dropWhile_append_stop (p : Char → Bool) (w : Str) (d : Char) (tail : Str)
    (hw : ∀ c ∈ w, p c = true) (hd : p d = false) :
    (w ++ d :: tail).dropWhile p = d :: tail := by
  induction w with
  | nil => simp [List.dropWhile, hd]
  | cons c w ih =>
    have hc := hw c (List.mem_cons_self _ _)
    simp only [List.cons_append, List.dropWhile_cons_of_pos hc]
    exact ih (fun x hx => hw x (List.mem_cons_of_mem _ hx))

theorem isRouteBody_of_isQuote (c : Char) (h : isQuote c = true) : isRouteBody c = false := by
  simp [isRouteBody, h]

theorem routeRegex_matchAt_of_not_quote (a : Char) (r : Str) (h : isQuote a = false) :
    routeRegex.matchAt (a :: r) = none := by
  simp [Pattern.matchAt, routeRegex, Re.run, h]

theorem routeRegex_matchAt_of_not_slash (a : Char) (r : Str) (h : r.head? ≠ some '/') :
    routeRegex.matchAt (a :: r) = none := by
  cases r with
  | nil => simp [Pattern.matchAt, routeRegex, Re.run, dropLit]
  | cons b r =>
    have hb : ¬ '/' = b := by
      intro hb; apply h; simp [← hb]
    simp [Pattern.matchAt, routeRegex, Re.run, dropLit, hb]

theorem routeRegex_matchAt_of_short (a b : Char) (r : Str) (h : isRouteBody b = false) :
    routeRegex.matchAt (a :: '/' :: b :: r) = none := by
  simp [Pattern.matchAt, routeRegex, Re.run, Re.plus, dropLit, h]

theorem routeRegex_matchAt_capture (q c q2 : Char) (w tail : Str) (hq : isQuote q = true)
    (hc : isRouteBody c = true) (hw : ∀ d ∈ w, isRouteBody d = true)
    (hq2 : isQuote q2 = true) :
    routeRegex.matchAt (q :: '/' :: c :: (w ++ q2 :: tail))
      = some ('/' :: c :: w, w.length + 4) := by
  simp only [Pattern.matchAt, routeRegex, Re.run, Re.plus, dropLit, hq, hc, if_true]
  rw [starRun_greedy_stop]
  · rw [dropWhile_append_stop _ _ _ _ hw (isRouteBody_of_isQuote _ hq2)]
    simp only [hq2, if_true, Option.some.injEq, Prod.mk.injEq]
    constructor
    · have : ('/' :: c :: (w ++ q2 :: tail)).length - (q2 :: tail).length = w.length + 2 := by
        simp; omega
      rw [this]
      simp
    · simp; omega
  · intro d t hd
    have : isQuote d = false := by
      cases hqd : isQuote d with
      | false => rfl
      | true => rw [isRouteBody_of_isQuote d hqd] at hd; cases hd
    simp [this]

theorem findAllAux_skip (P : Pattern) :
    ∀ (xs ys : Str), findAllAux P xs.length (xs ++ ys) = findAllAux P 0 ys := by
  intro xs
  induction xs with
  | nil => intro ys; rfl
  | cons c xs ih => intro ys; simpa [findAllAux] using ih ys

theorem findAllAux_cons_none (P : Pattern) (c : Char) (t : Str)
    (h : P.matchAt (c :: t) = none) : findAllAux P 0 (c :: t) = findAllAux P 0 t := by
  simp [findAllAux, h]

theorem findAllAux_cons_some (P : Pattern) (c : Char) (t cap : Str) (len : Nat)
    (h : P.matchAt (c :: t) = some (cap, len)) :
    findAllAux P 0 (c :: t) = cap :: findAllAux P (len - 1) t := by
  simp only [findAllAux, h]

theorem all_isRouteChar (w : Str) : w.all isRouteChar = !w.any isInvalidRouteChar := by
  induction w with
  | nil => rfl
  | cons c w ih => simp [List.all_cons, List.any_cons, ih, isInvalidRouteChar]

theorem routeRegex_scan_no_quote :
    ∀ (xs ys : Str), (∀ c ∈ xs, isQuote c = false) →
      findAllAux routeRegex 0 (xs ++ ys) = findAllAux routeRegex 0 ys := by
  intro xs
  induction xs with
  | nil => intro ys _; rfl
  | cons c xs ih =>
    intro ys h
    rw [List.cons_append, findAllAux_cons_none _ _ _
      (routeRegex_matchAt_of_not_quote c _ (h c (List.mem_cons_self _ _)))]
    exact ih ys (fun x hx => h x (List.mem_cons_of_mem _ hx))

theorem routeRegex_scan_literal_none (s tail : Str) (hs : ∀ c ∈ s, isQuote c = false)
    (htail : tail.head? ≠ some '/')
    (hnone : routeRegex.matchAt (dquote :: (s ++ dquote :: tail)) = none) :
    findAllAux routeRegex 0 (quoteLit s ++ tail) = findAllAux routeRegex 0 tail := by
  have htext : quoteLit s ++ tail = dquote :: (s ++ dquote :: tail) := by simp [quoteLit]
  rw [htext, findAllAux_cons_none _ _ _ hnone, routeRegex_scan_no_quote _ _ hs,
    findAllAux_cons_none _ _ _ (routeRegex_matchAt_of_not_slash dquote tail htail)]

theorem routeRegex_scan_literal (s tail : Str)
    (hs : ∀ c ∈ s, isQuote c = false ∧ isSpace c = false) (htail : tail.head? ≠ some '/') :
    findAllAux routeRegex 0 (quoteLit s ++ tail)
      = (if hasRouteForm s = true then [s] else []) ++ findAllAux routeRegex 0 tail := by
  have hq : ∀ c ∈ s, isQuote c = false := fun c hc => (hs c hc).1
  have hdq : isQuote dquote = true := by decide
  cases s with
  | nil =>
    rw [routeRegex_scan_literal_none [] tail hq htail
      (routeRegex_matchAt_of_not_slash _ _ (by simp; decide))]
    simp [hasRouteForm]
  | cons a s =>
    cases s with
    | nil =>
      have hnone : routeRegex.matchAt (dquote :: ([a] ++ dquote :: tail)) = none := by
        by_cases ha : a = '/'
        · subst ha
          exact routeRegex_matchAt_of_short _ _ _ (isRouteBody_of_isQuote _ hdq)
        · exact routeRegex_matchAt_of_not_slash _ _ (by simpa using ha)
      rw [routeRegex_scan_literal_none [a] tail hq htail hnone]
      simp [hasRouteForm]
    | cons c w =>
      by_cases ha : a = '/'
      · subst ha
        have hc : isRouteBody c = true := by
          have := hs c (by simp)
          simp [isRouteBody, this.1, this.2]
        have hw : ∀ d ∈ w, isRouteBody d = true := by
          intro d hd
          have := hs d (by simp [hd])
          simp [isRouteBody, this.1, this.2]
        have htext : quoteLit ('/' :: c :: w) ++ tail
            = dquote :: '/' :: c :: (w ++ dquote :: tail) := by simp [quoteLit]
        have hm := routeRegex_matchAt_capture dquote c dquote w tail hdq hc hw hdq
        have hskip := findAllAux_skip routeRegex ('/' :: c :: (w ++ [dquote])) tail
        have hlen : ('/' :: c :: (w ++ [dquote])).length = w.length + 4 - 1 := by simp
        have happ : '/' :: c :: (w ++ [dquote]) ++ tail = '/' :: c :: (w ++ dquote :: tail) := by
          simp
        rw [hlen, happ] at hskip
        rw [htext, findAllAux_cons_some _ _ _ _ _ hm, hskip]
        simp [hasRouteForm]
      · have hnone : routeRegex.matchAt (dquote :: (a :: c :: w ++ dquote :: tail)) = none :=
          routeRegex_matchAt_of_not_slash _ _ (by simpa using ha)
        rw [routeRegex_scan_literal_none (a :: c :: w) tail hq htail hnone]
        simp [hasRouteForm, ha]

theorem joinLits_head (sep s : Str) (rest : List Str) :
    (joinLits sep (s :: rest)).head? = some dquote := by
  cases rest <;> simp [joinLits, quoteLit]

theorem routeRegex_scan_joinLits (sep : Str) (hsep : ∀ c ∈ sep, isQuote c = false)
    (hhead : sep.head? ≠ some '/') :
    ∀ ss : List Str, (∀ s ∈ ss, ∀ c ∈ s, isQuote c = false ∧ isSpace c = false) →
      findAllSubmatch routeRegex (joinLits sep ss) = ss.filter hasRouteForm := by
  intro ss
  unfold findAllSubmatch
  induction ss with
  | nil => intro _; rfl
  | cons s rest ih =>
    intro h
    have hs := h s (List.mem_cons_self _ _)
    have hrest := ih (fun x hx => h x (List.mem_cons_of_mem _ hx))
    cases rest with
    | nil =>
      have := routeRegex_scan_literal s [] hs (by simp)
      simp only [List.append_nil] at this
      simp only [joinLits]
      rw [this]
      by_cases hf : hasRouteForm s = true <;> simp [hf, findAllAux]
    | cons s' rest =>
      have htail : (sep ++ joinLits sep (s' :: rest)).head? ≠ some '/' := by
        cases sep with
        | nil => simp [joinLits_head]; decide
        | cons a sep => simpa using hhead
      simp only [joinLits]
      rw [routeRegex_scan_literal s _ hs htail, routeRegex_scan_no_quote _ _ hsep, hrest]
      by_cases hf : hasRouteForm s = true <;> simp [hf, List.filter_cons]

theorem isRouteShape_eq (s : Str) :
    isRouteShape s = (!(invalidRoute.matchString s) && hasRouteForm s) := by
  rw [invalidRoute_matchString]
  cases s with
  | nil => simp [isRouteShape, hasRouteForm]
  | cons a s =>
    cases s with
    | nil => simp [isRouteShape, hasRouteForm]
    | cons c w =>
      by_cases ha : a = '/'
      · subst ha
        have hsl : isRouteChar '/' = true := by decide
        simp [isRouteShape, hasRouteForm, isInvalidRouteChar, hsl, all_isRouteChar]
      · have hb : (a == '/') = false := beq_eq_false_iff_ne.mpr ha
        simp [isRouteShape, hasRouteForm, hb]

theorem extractRoutes_joinLits (sep : Str) (hsep : ∀ c ∈ sep, isQuote c = false)
    (hhead : sep.head? ≠ some '/') (ss : List Str)
    (h : ∀ s ∈ ss, ∀ c ∈ s, isQuote c = false ∧ isSpace c = false) :
    extractRoutes (joinLits sep ss) = ss.filter isRouteShape := by
  unfold extractRoutes
  rw [routeRegex_scan_joinLits sep hsep hhead ss h, List.filter_filter]
  congr 1
  funext s
  exact (isRouteShape_eq s).symm

/-- C3: accepted route candidates are kept in first-seen order with
duplicates: for strings holding neither a quote character nor whitespace,
written as double-quoted literals separated by ` and ` or by one space, the
extracted routes are exactly those strings that are `/` followed by one or
more letters, digits, `_`, `/` or `-`, in their order and with repetitions. -/
theorem extractRoutes_first_seen_order (ss : List Str)
    (h : ∀ s ∈ ss, ∀ c ∈ s, isQuote c = false ∧ isSpace c = false) :
    extractRoutes (joinLits " and ".toList ss) = ss.filter isRouteShape ∧
      extractRoutes (joinLits " ".toList ss) = ss.filter isRouteShape :=
  ⟨extractRoutes_joinLits _ (by decide) (by decide) ss h,
    extractRoutes_joinLits _ (by decide) (by decide) ss h⟩

/-- Witness of C3: the text `"/api/v1/users" and "/api?x=1"` yields the one
route `/api/v1/users`. -/
theorem extractRoutes_first_seen_order_witness :
    joinLits " and ".toList ["/api/v1/users".toList, "/api?x=1".toList]
        = "\"/api/v1/users\" and \"/api?x=1\"".toList ∧
      ["/api/v1/users".toList, "/api?x=1".toList].filter isRouteShape
        = ["/api/v1/users".toList] ∧
      extractRoutes "\"/api/v1/users\" and \"/api?x=1\"".toList = ["/api/v1/users".toList] ∧
      (extractRoutes (joinLits " and ".toList ["/api/v1/users".toList, "/api?x=1".toList])
          = ["/api/v1/users".toList, "/api?x=1".toList].filter isRouteShape ∧
        extractRoutes (joinLits " ".toList ["/api/v1/users".toList, "/api?x=1".toList])
          = ["/api/v1/users".toList, "/api?x=1".toList].filter isRouteShape) :=
  ⟨by decide, by decide, by decide,
    extractRoutes_first_seen_order ["/api/v1/users".toList, "/api?x=1".toList] (by decide)⟩

/-! ## Dependencies -/

theorem findAllAux_eq_scanCalls (P : Pattern) :
    ∀ (s : Str) (n : Nat), findAllAux P n s = scanCalls P.matchAt n s := by
  intro s
  induction s with
  | nil => intro n; simp [findAllAux, scanCalls]
  | cons c t ih =>
    intro n
    cases n with
    | succ n => simp only [findAllAux, scanCalls, ih]
    | zero =>
      simp only [findAllAux, scanCalls]
      cases P.matchAt (c :: t) with
      | none => exact ih 0
      | some r => simp only [ih]

theorem take_length_sub_dropWhile (p : Char → Bool) (l : Str) :
    l.take (l.length - (l.dropWhile p).length) = l.takeWhile p := by
  have hsplit := List.takeWhile_append_dropWhile p l
  have hlen : l.length - (l.dropWhile p).length = (l.takeWhile p).length := by
    have := congrArg List.length hsplit
    simp only [List.length_append] at this
    omega
  rw [hlen]
  exact (congrArg (List.take _) hsplit.symm).trans (List.take_left' rfl)

theorem length_takeWhile_add (p : Char → Bool) (l : Str) :
    l.length = (l.takeWhile p).length + (l.dropWhile p).length := by
  have := congrArg List.length (List.takeWhile_append_dropWhile p l)
  simp only [List.length_append] at this
  omega

theorem depRegex_matchAt_eq (s : Str) : depRegex.matchAt s = looseRequireAt s := by
  unfold looseRequireAt
  simp only [Pattern.matchAt, depRegex, Re.run, Re.plus]
  cases hd : dropLit "require(".toList s with
  | none => rfl
  | some r0 =>
    have hs := (dropLit_eq_some _ _ _).mp hd
    cases r0 with
    | nil => rfl
    | cons q r =>
      by_cases hq : isQuote q = true
      · cases r with
        | nil => simp [hq]
        | cons c t =>
          by_cases hc : isDepChar c = true
          · simp only [hq, hc, if_true, List.takeWhile_cons_of_pos, List.dropWhile_cons_of_pos,
              List.isEmpty_cons, Bool.not_false, Bool.and_self]
            rw [starRun_greedy_stop]
            · have hlen := length_takeWhile_add isDepChar t
              have htake := take_length_sub_dropWhile isDepChar (c :: t)
              rw [List.dropWhile_cons_of_pos hc, List.takeWhile_cons_of_pos hc] at htake
              cases hdw : t.dropWhile isDepChar with
              | nil => rfl
              | cons q2 r2 =>
                rw [hdw] at htake hlen
                by_cases hq2 : isQuote q2 = true
                · cases r2 with
                  | nil => simp [hq2, dropLit]
                  | cons b r3 =>
                    by_cases hb : b = ')'
                    · subst hb
                      simp only [hq2, dropLit, if_true, beq_self_eq_true, Bool.and_self,
                        htake, Option.some.injEq, Prod.mk.injEq, true_and]
                      rw [hs]
                      simp only [List.length_append, List.length_cons, hlen]
                      simp
                      omega
                    · have hb' : ¬ ')' = b := fun h => hb h.symm
                      simp [hq2, dropLit, hb, hb']
                · cases r2 <;> simp [hq2]
            · intro d u hd
              have : isQuote d = false := by simpa [isDepChar] using hd
              simp [this]
          · simp [hq, hc]
      · simp [hq]

/-- C4, as the code has it: the dependencies extracted from a script text are
the arguments of the calls met scanning left to right, a call being
`require(`, a quote of either kind, a non-empty argument without any quote
character, a quote of either kind and `)`; arguments are verbatim and
repeated when the calls are.  The text `require("a"); require('a');` gives
`a` twice. -/
theorem extractDependencies_eq_looseRequireArgs :
    (∀ t : Str, extractDependencies t = looseRequireArgs t) ∧
      extractDependencies "require(\"a\"); require('a');".toList = ["a".toList, "a".toList] := by
  refine ⟨?_, by decide⟩
  intro t
  unfold extractDependencies findAllSubmatch looseRequireArgs
  rw [findAllAux_eq_scanCalls]
  congr 1
  funext s
  exact depRegex_matchAt_eq s

/-- C4 fails as stated: the text `require("it's")` holds one call of the form
`require("...")`, with argument `it's`, and the extracted dependency list is
empty; and the text `require("a')`, which holds no call of either form, gives
the dependency `a`. -/
theorem extractDependencies_misses_quote_in_argument :
    specRequireArgs "require(\"it's\")".toList = ["it's".toList] ∧
      extractDependencies "require(\"it's\")".toList = [] ∧
      specRequireArgs "require(\"a')".toList = [] ∧
      extractDependencies "require(\"a')".toList = ["a".toList] ∧
      ¬ (∀ t : Str, extractDependencies t = specRequireArgs t) := by
  refine ⟨by decide, by decide, by decide, by decide, ?_⟩
  intro h
  exact absurd (h "require(\"it's\")".toList) (by decide)

/-! ## Tokens -/

theorem splitDots_of_no_dot : ∀ s : Str, '.' ∉ s → splitDots s = [s] := by
  intro s
  induction s with
  | nil => intro _; rfl
  | cons c t ih =>
    intro h
    have hc : ¬ c = '.' := fun hc => h (by simp [hc])
    have ht : '.' ∉ t := fun ht => h (List.mem_cons_of_mem _ ht)
    simp [splitDots, hc, ih ht]

theorem splitDots_append_dot : ∀ (s rest : Str), '.' ∉ s →
    splitDots (s ++ '.' :: rest) = s :: splitDots rest := by
  intro s
  induction s with
  | nil => intro rest _; simp [splitDots]
  | cons c t ih =>
    intro rest h
    have hc : ¬ c = '.' := fun hc => h (by simp [hc])
    have ht : '.' ∉ t := fun ht => h (List.mem_cons_of_mem _ ht)
    simp [splitDots, hc, ih rest ht]

theorem structurallyWellFormed_of_segments (decodable : Str → Bool) (h p sig : Str)
    (hh : '.' ∉ h) (hp : '.' ∉ p) (hsig : '.' ∉ sig) :
    structurallyWellFormed decodable (h ++ '.' :: (p ++ '.' :: sig))
      = (!h.isEmpty && !p.isEmpty && !sig.isEmpty && decodable h && decodable p) := by
  unfold structurallyWellFormed
  rw [splitDots_append_dot h _ hh, splitDots_append_dot p _ hp, splitDots_of_no_dot sig hsig]

set_option maxRecDepth 100000

theorem extractTokens_of_rejecting_parse (jwtParseValid : Str → Bool)
    (hnil : ∀ s, jwtParseValid s = false) (t : Str) : extractTokens jwtParseValid t = [] := by
  unfold extractTokens
  rw [List.filter_eq_nil_iff]
  intro tok _
  simp [hnil]

/-- C5 (fails in the code): the program hands `jwt.Parse` a key function that
returns a nil key, and the library verifies the signature with that key, which
no signing method accepts, so the call fails for every candidate.  For such
an outcome of `jwt.Parse` the token list of every text is empty; in
particular the correctly signed token of the text below is matched by the
token pattern and is structurally well-formed, and it is not kept. -/
theorem extractTokens_drops_well_formed_candidate (jwtParseValid : Str → Bool)
    (hnil : ∀ s, jwtParseValid s = false) (decodable : Str → Bool)
    (hh : decodable "eyJhbGciOiJIUzI1NiIsInR5cCI6IkpXVCJ9".toList = true)
    (hp : decodable
      "eyJzdWIiOiIxMjM0NTY3ODkwIiwibmFtZSI6IkpvaG4gRG9lIiwiaWF0IjoxNTE2MjM5MDIyfQ".toList
        = true) :
    failingToken ∈ findAllSubmatch tokenRegex failingTokenScript ∧
      structurallyWellFormed decodable failingToken = true ∧
      failingToken ∉ extractTokens jwtParseValid failingTokenScript ∧
      ∀ t : Str, extractTokens jwtParseValid t = [] := by
  refine ⟨by decide, ?_, ?_, extractTokens_of_rejecting_parse jwtParseValid hnil⟩
  · have hsplit : failingToken
        = "eyJhbGciOiJIUzI1NiIsInR5cCI6IkpXVCJ9".toList ++ '.' ::
          ("eyJzdWIiOiIxMjM0NTY3ODkwIiwibmFtZSI6IkpvaG4gRG9lIiwiaWF0IjoxNTE2MjM5MDIyfQ".toList
            ++ '.' :: "SflKxwRJSMeKKF2QT4fwpMeJf36POk6yJV_adQssw5c".toList) := by decide
    rw [hsplit, structurallyWellFormed_of_segments decodable _ _ _ (by decide) (by decide)
      (by decide), hh, hp]
    decide
  · rw [extractTokens_of_rejecting_parse jwtParseValid hnil]
    exact List.not_mem_nil _

/-- Witness of C5 with a parse outcome that fails on every input and a
decoding test that accepts every segment. -/
theorem extractTokens_drops_well_formed_candidate_witness :
    failingToken ∈ findAllSubmatch tokenRegex failingTokenScript ∧
      structurallyWellFormed (fun _ => true) failingToken = true ∧
      failingToken ∉ extractTokens (fun _ => false) failingTokenScript ∧
      ∀ t : Str, extractTokens (fun _ => false) t = [] :=
  extractTokens_drops_well_formed_candidate (fun _ => false) (fun _ => rfl) (fun _ => true)
    rfl rfl

end FrontParser
